import Mathlib

/-!
Verification of the KAMIS scraper core
(`src/teddybear/teddybear/spiders/kamis.py`).

The Python source is shallowly embedded below: pure helpers become Lean
functions, the Supabase-backed `DatabaseManager` becomes explicit state
passing over a `DBState` record, network fetches become oracle values of
type `Except`, and Python `Decimal` / `date` values become executable
structures.  Machine floats never arise: prices are parsed into exact
decimal mantissa/scale pairs and `float(...)` is modelled as the exact
rational value.
-/

/-! ## Python string primitives -/

/-- The six ASCII whitespace characters stripped by Python `str.strip()`. -/
def isPySpace (c : Char) : Bool :=
  c == ' ' || c == '\t' || c == '\n' || c == '\r' || c == '\x0b' || c == '\x0c'

def pyStripChars (l : List Char) : List Char :=
  ((l.dropWhile isPySpace).reverse.dropWhile isPySpace).reverse

/-- Python `str.strip()` (ASCII whitespace model). -/
def pyStrip (s : String) : String := String.mk (pyStripChars s.data)

/-- Python `str.title()` for ASCII: a letter is uppercased when the previous
character is not a letter, lowercased otherwise. -/
def pyTitleChars : List Char → Bool → List Char
  | [], _ => []
  | c :: cs, prevCased =>
    (if c.isAlpha then (if prevCased then c.toLower else c.toUpper) else c)
      :: pyTitleChars cs c.isAlpha

def pyTitle (s : String) : String := String.mk (pyTitleChars s.data false)

/-- The normalization `name.strip().title()` applied by every
`_get_or_create_*` method of `DatabaseManager`. -/
def normName (s : String) : String := pyTitle (pyStrip s)

/-- Python substring containment `sub in hay` on character lists. -/
def listContainsSub (sub : List Char) : List Char → Bool
  | [] => sub.isEmpty
  | c :: cs => sub.isPrefixOf (c :: cs) || listContainsSub sub cs

/-- Python substring containment `sub in hay` for strings. -/
def strContainsSub (hay sub : String) : Bool := listContainsSub sub.data hay.data

/-- First `some` produced by `f` along a list (Python loop with `return`). -/
def firstSome {α β : Type} (f : α → Option β) : List α → Option β
  | [] => none
  | a :: l =>
    match f a with
    | some b => some b
    | none => firstSome f l

/-- Python `str.split(sep)` on character lists (keeps empty parts). -/
def splitOnChar (sep : Char) : List Char → List (List Char)
  | [] => [[]]
  | c :: cs =>
    let rest := splitOnChar sep cs
    if c == sep then [] :: rest
    else
      match rest with
      | r :: rs => (c :: r) :: rs
      | [] => [[c]]

/-- Python `str.lower()` (ASCII model). -/
def pyLower (s : String) : String := String.mk (s.data.map Char.toLower)

/-! ## Decimal values (`decimal.Decimal` restricted to the scraper's use) -/

/-- A non-negative Python `Decimal` as produced by the two numeric parsers:
value `mantissa / 10 ^ scale`. -/
structure PyDecimal where
  mantissa : Nat
  scale : Nat
  deriving DecidableEq, Repr

/-- The exact rational value of a decimal; models `float(d)` exactly. -/
def decFloat (d : PyDecimal) : ℚ := (d.mantissa : ℚ) / (10 : ℚ) ^ d.scale

def natOfDigits (l : List Char) : Nat :=
  l.foldl (fun acc c => acc * 10 + (c.toNat - 48)) 0

/-- `Decimal(text)` for a text made only of digits and dots: it succeeds iff
there is at most one dot and at least one digit. -/
def decOfDigitsDot (l : List Char) : Option PyDecimal :=
  if (l.filter (fun c => c == '.')).length ≤ 1 ∧ l.any Char.isDigit then
    let intPart := l.takeWhile (fun c => c != '.')
    let fracPart := (l.dropWhile (fun c => c != '.')).drop 1
    some ⟨natOfDigits (intPart ++ fracPart), fracPart.length⟩
  else none

/-! ## Value parsers (`KAMISScraper._parse_price`, `_parse_volume`,
`_parse_date`) -/

/-- Embeds `KAMISScraper._parse_price` (kamis.py lines 303-312). -/
def parse_price (value : String) : Option PyDecimal :=
  if value == "" || value == "-" || value == "N/A" then none
  else
    let cleaned := value.data.filter (fun c => c.isDigit || c == '.')
    if cleaned.isEmpty then none else decOfDigitsDot cleaned

/-- First maximal run of digits (`re.findall(r"\d+", s)[0]`). -/
def firstDigitRun : List Char → Option (List Char)
  | [] => none
  | c :: cs =>
    if c.isDigit then some ((c :: cs).takeWhile Char.isDigit)
    else firstDigitRun cs

/-- Embeds `KAMISScraper._parse_volume` (kamis.py lines 314-325). -/
def parse_volume (value : String) : Option PyDecimal :=
  if value == "" || value == "-" || value == "N/A" then none
  else
    match firstDigitRun (value.data.filter (fun c => c != ',')) with
    | some run => some ⟨natOfDigits run, 0⟩
    | none => none

/-! ### Dates -/

structure PyDate where
  year : Nat
  month : Nat
  day : Nat
  deriving DecidableEq, Repr

def isLeapYear (y : Nat) : Bool := (y % 4 == 0 && y % 100 != 0) || y % 400 == 0

def daysInMonth (y m : Nat) : Nat :=
  if m == 2 then (if isLeapYear y then 29 else 28)
  else if m == 4 || m == 6 || m == 9 || m == 11 then 30
  else 31

/-- Validity condition enforced by `datetime(year, month, day)`. -/
def validYMD (y m d : Nat) : Prop :=
  1 ≤ y ∧ y ≤ 9999 ∧ 1 ≤ m ∧ m ≤ 12 ∧ 1 ≤ d ∧ d ≤ daysInMonth y m

instance (y m d : Nat) : Decidable (validYMD y m d) := by
  unfold validYMD; infer_instance

inductive DateField
  | Y
  | M
  | D
  deriving DecidableEq, Repr

/-- One `strptime` pattern of the fixed list: three fields joined by a
separator character. -/
structure DateFmt where
  f1 : DateField
  f2 : DateField
  f3 : DateField
  sep : Char
  deriving DecidableEq, Repr

/-- The ordered pattern list `['%Y-%m-%d', '%d/%m/%Y', '%d-%m-%Y', '%m/%d/%Y']`
of `KAMISScraper._parse_date`. -/
def strptimeFormats : List DateFmt :=
  [⟨DateField.Y, DateField.M, DateField.D, '-'⟩,
   ⟨DateField.D, DateField.M, DateField.Y, '/'⟩,
   ⟨DateField.D, DateField.M, DateField.Y, '-'⟩,
   ⟨DateField.M, DateField.D, DateField.Y, '/'⟩]

/-- CPython `_strptime` field regexes: `%Y` is exactly four digits, `%m` is
one or two digits valued 1..12, `%d` is one or two digits valued 1..31. -/
def fieldOk (f : DateField) (part : List Char) : Prop :=
  part ≠ [] ∧ (∀ c ∈ part, c.isDigit = true) ∧
    (match f with
     | DateField.Y => part.length = 4
     | DateField.M => part.length ≤ 2 ∧ 1 ≤ natOfDigits part ∧ natOfDigits part ≤ 12
     | DateField.D => part.length ≤ 2 ∧ 1 ≤ natOfDigits part ∧ natOfDigits part ≤ 31)

instance (f : DateField) (part : List Char) : Decidable (fieldOk f part) := by
  unfold fieldOk; cases f <;> simp only <;> infer_instance

def pickField (fmt : DateFmt) (f : DateField) (v1 v2 v3 : Nat) : Nat :=
  if fmt.f1 = f then v1 else if fmt.f2 = f then v2 else v3

/-- `datetime.strptime(s, fmt).date()` as `Option`: the string must split on
the separator into exactly three field-shaped parts forming a valid date. -/
def tryParseFmt (fmt : DateFmt) (s : String) : Option PyDate :=
  match splitOnChar fmt.sep s.data with
  | [p1, p2, p3] =>
    if fieldOk fmt.f1 p1 ∧ fieldOk fmt.f2 p2 ∧ fieldOk fmt.f3 p3 then
      let y := pickField fmt DateField.Y (natOfDigits p1) (natOfDigits p2) (natOfDigits p3)
      let m := pickField fmt DateField.M (natOfDigits p1) (natOfDigits p2) (natOfDigits p3)
      let d := pickField fmt DateField.D (natOfDigits p1) (natOfDigits p2) (natOfDigits p3)
      if validYMD y m d then some ⟨y, m, d⟩ else none
    else none
  | _ => none

def parse_date_go (today : PyDate) (value : String) : List DateFmt → PyDate
  | [] => today
  | fmt :: rest =>
    match tryParseFmt fmt (pyStrip value) with
    | some d => d
    | none => parse_date_go today value rest

/-- Embeds `KAMISScraper._parse_date` (kamis.py lines 327-338).
`date.today()` is passed explicitly as `today`. -/
def parse_date (today : PyDate) (value : String) : PyDate :=
  parse_date_go today value strptimeFormats

/-- Python `str(date)` / `date.isoformat()`: zero-padded `YYYY-MM-DD`. -/
def digitChar (n : Nat) : Char := Char.ofNat (48 + n % 10)

def pad2 (n : Nat) : String := String.mk [digitChar (n / 10 % 10), digitChar (n % 10)]

def pad4 (n : Nat) : String :=
  String.mk [digitChar (n / 1000 % 10), digitChar (n / 100 % 10),
             digitChar (n / 10 % 10), digitChar (n % 10)]

def pyDateIso (d : PyDate) : String := pad4 d.year ++ "-" ++ pad2 d.month ++ "-" ++ pad2 d.day

/-! ## Market/county resolver (`KAMISScraper._extract_county_from_market`,
kamis.py lines 340-355)

The first source regex is `(.+?)\s*[-â€“]\s*(.+)`: its character class
holds, besides the hyphen, the three characters of a mis-encoded en-dash
(the UTF-8 bytes of U+2013 decoded as other code points), so a genuine
en-dash is NOT in the class.  For these anchored `re.match` patterns with
lazy head group, a match picks the first class character at index at least
1 that still leaves one character after it; since both capture groups are
`.strip()`ed, the result only depends on that index. -/

def sepClass1 : List Char := ['-', 'â', '€', '“']

def findSepIdx (cls : List Char) (chars : List Char) : Option Nat :=
  (List.range chars.length).find? (fun k =>
    decide (1 ≤ k) && decide (k + 1 < chars.length) && cls.contains ((chars.get? k).getD ' '))

/-- `re.match(r"(.+?)\s*[cls]\s*(.+)", text)` with both groups stripped. -/
def matchSepPattern (cls : List Char) (text : String) : Option (String × String) :=
  match findSepIdx cls text.data with
  | some k =>
    some (pyStrip (String.mk (text.data.take k)), pyStrip (String.mk (text.data.drop (k + 1))))
  | none => none

def parenCandidates (chars : List Char) : List Nat :=
  (List.range chars.length).filter (fun k =>
    decide (1 ≤ k) && (((chars.get? k).getD ' ') == '('))

def findCloseIdx (chars : List Char) (start : Nat) : Option Nat :=
  (List.range chars.length).find? (fun k =>
    decide (start ≤ k) && (((chars.get? k).getD ' ') == ')'))

/-- `re.match(r"(.+?)\s*\((.+?)\)", text)` with both groups stripped: the
first opening paren at index at least 1 that is followed, two or more
characters later, by a closing paren; the lazy inner group ends at the
first such closing paren. -/
def matchParenPattern (text : String) : Option (String × String) :=
  let chars := text.data
  firstSome (fun k =>
    match findCloseIdx chars (k + 2) with
    | some r =>
      some (pyStrip (String.mk (chars.take k)),
            pyStrip (String.mk ((chars.drop (k + 1)).take (r - (k + 1)))))
    | none => none) (parenCandidates chars)

/-- Embeds `KAMISScraper._extract_county_from_market`. -/
def extract_county_from_market (market_text : String) : String × String :=
  match matchSepPattern sepClass1 market_text with
  | some p => p
  | none =>
    match matchParenPattern market_text with
    | some p => p
    | none =>
      match matchSepPattern [','] market_text with
      | some p => p
      | none => (pyStrip market_text, "Unknown")

/-! ## Header mapper (`header_map` and `find_column_index`,
kamis.py lines 377-407) -/

def header_map : List (String × List String) :=
  [("market", ["market", "market name", "soko"]),
   ("county", ["county", "region", "county name"]),
   ("classification", ["classification", "variety", "type"]),
   ("grade", ["grade", "quality"]),
   ("sex", ["sex", "gender"]),
   ("wholesale", ["wholesale price", "wholesale", "w/sale price"]),
   ("retail", ["retail price", "retail", "price"]),
   ("volume", ["supply volume", "volume", "quantity", "supply"]),
   ("date", ["date", "price date", "recorded date"])]

/-- Index (plus one shift absent: zero-based) of the first header containing
any of the variants as a substring. -/
def firstMatchIdx (variants : List String) : List String → Option Nat
  | [] => none
  | h :: hs =>
    if variants.any (fun v => strContainsSub h v) then some 0
    else (firstMatchIdx variants hs).map (· + 1)

/-- Embeds `find_column_index` of `KAMISScraper.scrape_product`: the source
scans `header_map` for the entry whose key equals `target` (keys are
distinct, so at most one matches) and returns the first matching header
index, `-1` when no header matches or the target is unknown. -/
def find_column_index (headers : List String) (target : String) : Int :=
  match header_map.find? (fun p => p.1 == target) with
  | some p =>
    match firstMatchIdx p.2 headers with
    | some i => Int.ofNat i
    | none => -1
  | none => -1

/-! ## Table extractor (`KAMISScraper.scrape_product`, kamis.py
lines 357-459) -/

/-- One scraped row (the `ScrapedRecord` dataclass). -/
structure ScrapedRecord where
  product_name : String
  market_name : String
  county_name : String
  classification : Option String
  grade : Option String
  sex : Option String
  wholesale_price : Option PyDecimal
  retail_price : Option PyDecimal
  supply_volume : Option PyDecimal
  price_date : PyDate
  deriving DecidableEq, Repr

/-- The parsed data table: header-cell texts (when a `thead` exists) and the
`td` texts of each `tbody` row (when a `tbody` exists). -/
structure HtmlTable where
  thead : Option (List String)
  tbody : Option (List (List String))
  deriving Repr

structure IdxMap where
  market : Int
  county : Int
  classification : Int
  grade : Int
  sex : Int
  wholesale : Int
  retail : Int
  volume : Int
  date : Int
  deriving DecidableEq, Repr

def buildIdxMap (headers : List String) : IdxMap :=
  { market := find_column_index headers "market",
    county := find_column_index headers "county",
    classification := find_column_index headers "classification",
    grade := find_column_index headers "grade",
    sex := find_column_index headers "sex",
    wholesale := find_column_index headers "wholesale",
    retail := find_column_index headers "retail",
    volume := find_column_index headers "volume",
    date := find_column_index headers "date" }

/-- `cells[i].get_text(strip=True)`; out-of-range indexing raises
(`Except.error`), which the caller's `try` turns into an empty product. -/
def pyCellGet (cells : List String) (i : Nat) : Except Unit String :=
  match cells.get? i with
  | some c => Except.ok (pyStrip c)
  | none => Except.error ()

/-- Processes one `tbody` row: `none` means the malformed-row skip
(fewer than 3 cells). -/
def extractRow (m : IdxMap) (pname : String) (today : PyDate) (cells : List String) :
    Except Unit (Option ScrapedRecord) :=
  if cells.length < 3 then Except.ok none
  else do
    let market_text ← (if 0 ≤ m.market then pyCellGet cells m.market.toNat else Except.ok "")
    let mc ←
      (if 0 ≤ m.county then do
        let c ← pyCellGet cells m.county.toNat
        pure (market_text, c)
      else pure (extract_county_from_market market_text))
    let date_text ← (if 0 ≤ m.date then pyCellGet cells m.date.toNat else Except.ok (pyDateIso today))
    let cls ← (if 0 ≤ m.classification then (pyCellGet cells m.classification.toNat).map some
               else Except.ok none)
    let grd ← (if 0 ≤ m.grade then (pyCellGet cells m.grade.toNat).map some else Except.ok none)
    let sx ← (if 0 ≤ m.sex then (pyCellGet cells m.sex.toNat).map some else Except.ok none)
    let wtext ← (if 0 ≤ m.wholesale then pyCellGet cells m.wholesale.toNat else Except.ok "")
    let rtext ← (if 0 ≤ m.retail then pyCellGet cells m.retail.toNat else Except.ok "")
    let vtext ← (if 0 ≤ m.volume then pyCellGet cells m.volume.toNat else Except.ok "")
    Except.ok (some
      { product_name := pname,
        market_name := mc.1,
        county_name := if mc.2 == "" then "Unknown" else mc.2,
        classification := cls,
        grade := grd,
        sex := sx,
        wholesale_price := parse_price wtext,
        retail_price := parse_price rtext,
        supply_volume := parse_volume vtext,
        price_date := parse_date today date_text })

def extractRowsGo (m : IdxMap) (pname : String) (today : PyDate) :
    List (List String) → Except Unit (List ScrapedRecord)
  | [] => Except.ok []
  | row :: rest => do
    let r ← extractRow m pname today row
    let rs ← extractRowsGo m pname today rest
    match r with
    | some rec => Except.ok (rec :: rs)
    | none => Except.ok rs

/-- The pure part of `scrape_product` once the page is fetched: headers are
stripped and lowercased, the index map built, each row processed.  An
`Except.error` models an uncaught per-row exception (out-of-range cell
index), which discards the whole product. -/
def extractRecords (t : HtmlTable) (pname : String) (today : PyDate) :
    Except Unit (List ScrapedRecord) :=
  let headers := (t.thead.getD []).map (fun h => pyLower (pyStrip h))
  let m := buildIdxMap headers
  match t.tbody with
  | none => Except.ok []
  | some rows => extractRowsGo m pname today rows

/-- Embeds `KAMISScraper.scrape_product` given the fetch outcome: a fetch
error, a missing table, or any extraction exception yields zero records. -/
def scrape_product (fetch : Except String (Option HtmlTable)) (pname : String)
    (today : PyDate) : List ScrapedRecord :=
  match fetch with
  | Except.error _ => []
  | Except.ok none => []
  | Except.ok (some t) =>
    match extractRecords t pname today with
    | Except.ok rs => rs
    | Except.error _ => []

/-! ## Database manager (`DatabaseManager`, kamis.py lines 65-257)

Supabase tables become lists whose surrogate id is the row index plus one
(ids are serial and nothing is ever deleted).  `select ... .eq(...)` takes
the first matching row; `insert` appends.  The in-process caches become
association lists. -/

/-- A staged/persisted `price_records` row. -/
structure PriceRow where
  commodity_id : Nat
  market_id : Nat
  classification : Option String
  grade : Option String
  sex : Option String
  wholesale_price : Option ℚ
  retail_price : Option ℚ
  supply_volume : Option ℚ
  record_date : PyDate
  deriving DecidableEq, Repr

/-- The database plus the `DatabaseManager` caches.  County rows carry their
name; commodity rows carry name and optional category id; market rows carry
name and county id. -/
structure DBState where
  categories : List String
  counties : List String
  commodities : List (String × Option Nat)
  markets : List (String × Nat)
  priceRecords : List PriceRow
  countyCache : List (String × Nat)
  commodityCache : List (String × Nat)
  marketCache : List (String × Nat)
  deriving DecidableEq, Repr

/-- Id (index plus one) of the first row satisfying the filter:
`select('id').eq(...).execute().data[0]['id']`. -/
def selectId {α : Type} (p : α → Bool) : List α → Option Nat
  | [] => none
  | a :: l => if p a then some 1 else (selectId p l).map (· + 1)

/-- Lookup in one of the `_cache` dictionaries (association list; entries
are only ever appended, at most once per key). -/
def cacheLookup (cache : List (String × Nat)) (key : String) : Option Nat :=
  match cache with
  | [] => none
  | e :: rest => if e.1 == key then some e.2 else cacheLookup rest key

/-- Embeds `DatabaseManager._get_or_create_county` (lines 89-106). -/
def get_or_create_county (s : DBState) (name : String) : Nat × DBState :=
  let n := normName name
  match cacheLookup s.countyCache n with
  | some i => (i, s)
  | none =>
    match selectId (fun r => r == n) s.counties with
    | some i => (i, { s with countyCache := s.countyCache ++ [(n, i)] })
    | none =>
      let counties := s.counties ++ [n]
      let i := counties.length
      (i, { s with counties := counties, countyCache := s.countyCache ++ [(n, i)] })

/-- The ordered keyword table of `DatabaseManager._categorize_product`. -/
def category_map : List (String × List String) :=
  [("Grains", ["maize", "beans", "rice", "wheat", "sorghum", "millet", "greengrams", "ndengu"]),
   ("Vegetables", ["cabbage", "kale", "spinach", "tomato", "onion", "potato", "carrot",
                   "pepper", "eggplant", "lettuce"]),
   ("Fruits", ["mango", "banana", "orange", "apple", "pineapple", "watermelon", "avocado",
               "passion"]),
   ("Livestock", ["cattle", "goat", "sheep", "pig", "chicken", "broiler", "layer", "beef",
                  "mutton"]),
   ("Fish", ["fish", "tilapia", "nile perch", "omena", "sardine"])]

/-- Embeds `DatabaseManager._categorize_product` (lines 135-157): the first
keyword-matching category whose row exists wins (a matching category whose
row is absent falls through to the next); otherwise the `Other` row, absent
meaning `None`. -/
def categorize_product (s : DBState) (product_name : String) : Option Nat :=
  let nl := pyLower product_name
  match firstSome (fun e =>
      if e.2.any (fun kw => strContainsSub nl kw) then
        selectId (fun c => c == e.1) s.categories
      else none) category_map with
  | some i => some i
  | none => selectId (fun c => c == "Other") s.categories

/-- Embeds `DatabaseManager._get_or_create_commodity` (lines 108-133). -/
def get_or_create_commodity (s : DBState) (product_name : String) : Nat × DBState :=
  let n := normName product_name
  match cacheLookup s.commodityCache n with
  | some i => (i, s)
  | none =>
    let category_id := categorize_product s n
    match selectId (fun r => r.1 == n) s.commodities with
    | some i => (i, { s with commodityCache := s.commodityCache ++ [(n, i)] })
    | none =>
      let commodities := s.commodities ++ [(n, category_id)]
      let i := commodities.length
      (i, { s with commodities := commodities,
                   commodityCache := s.commodityCache ++ [(n, i)] })

/-- The market cache key `f"{market_name.strip().title()}_{county_name.strip().title()}"`. -/
def marketKey (market_name county_name : String) : String :=
  normName market_name ++ "_" ++ normName county_name

/-- Embeds `DatabaseManager._get_or_create_market` (lines 159-187). -/
def get_or_create_market (s : DBState) (market_name county_name : String) : Nat × DBState :=
  let key := marketKey market_name county_name
  match cacheLookup s.marketCache key with
  | some i => (i, s)
  | none =>
    let cres := get_or_create_county s county_name
    let county_id := cres.1
    let s1 := cres.2
    let n := normName market_name
    match selectId (fun r => r.1 == n && r.2 == county_id) s1.markets with
    | some i => (i, { s1 with marketCache := s1.marketCache ++ [(key, i)] })
    | none =>
      let markets := s1.markets ++ [(n, county_id)]
      let i := markets.length
      (i, { s1 with markets := markets, marketCache := s1.marketCache ++ [(key, i)] })

/-- Python truthiness `if x` for `Optional[Decimal]` composed with
`float(x)`: `None` and decimal zero give `None`, otherwise the exact value. -/
def pyFloatOrNone (v : Option PyDecimal) : Option ℚ :=
  match v with
  | some d => if d.mantissa == 0 then none else some (decFloat d)
  | none => none

/-- The dictionary appended to `batch` in `insert_price_records`
(lines 214-224). -/
def stageRecord (commodity_id market_id : Nat) (r : ScrapedRecord) : PriceRow :=
  { commodity_id := commodity_id,
    market_id := market_id,
    classification := r.classification,
    grade := r.grade,
    sex := r.sex,
    wholesale_price := pyFloatOrNone r.wholesale_price,
    retail_price := pyFloatOrNone r.retail_price,
    supply_volume := pyFloatOrNone r.supply_volume,
    record_date := r.price_date }

/-- The dedup key of a persisted row (`commodity_id, market_id, record_date`;
`isoformat` is injective so the date is compared directly). -/
def rowTriple (r : PriceRow) : Nat × Nat × PyDate :=
  (r.commodity_id, r.market_id, r.record_date)

/-- The duplicate existence check of `insert_price_records` (lines 203-212). -/
def dedupHit (s : DBState) (cid mid : Nat) (d : PyDate) : Bool :=
  s.priceRecords.any (fun pr => decide (rowTriple pr = (cid, mid, d)))

/-- Which persistence calls raise: `bulkFails` for the batched insert,
`rowFails` for an individual fallback insert.  `noFailures` is the
failure-free store. -/
structure FailureModel where
  bulkFails : List PriceRow → Bool
  rowFails : PriceRow → Bool

def noFailures : FailureModel := ⟨fun _ => false, fun _ => false⟩

/-- Embeds `DatabaseManager._execute_batch_insert` (lines 241-257): one bulk
insert counting the whole batch, or on bulk failure a per-row fallback
keeping and counting exactly the individually successful rows. -/
def execute_batch_insert (fm : FailureModel) (s : DBState) (batch : List PriceRow) :
    Nat × DBState :=
  if fm.bulkFails batch then
    let ok := batch.filter (fun r => !fm.rowFails r)
    (ok.length, { s with priceRecords := s.priceRecords ++ ok })
  else
    (batch.length, { s with priceRecords := s.priceRecords ++ batch })

/-- The `BATCH_SIZE = 100` constant. -/
def BATCH_SIZE : Nat := 100

/-- The loop of `DatabaseManager.insert_price_records` (lines 189-239),
instrumented with the list of flushed batches (third component) so the
batching discipline can be stated; the first two components are exactly the
source's running count and database state. -/
def insertLoop (fm : FailureModel) :
    List ScrapedRecord → DBState → List PriceRow → Nat × DBState × List (List PriceRow)
  | [], s, batch =>
    if batch.isEmpty then (0, s, [])
    else
      let res := execute_batch_insert fm s batch
      (res.1, res.2, [batch])
  | r :: rest, s, batch =>
    let cres := get_or_create_commodity s r.product_name
    let commodity_id := cres.1
    let mres := get_or_create_market cres.2 r.market_name r.county_name
    let market_id := mres.1
    let s2 := mres.2
    if dedupHit s2 commodity_id market_id r.price_date then
      insertLoop fm rest s2 batch
    else
      let batch1 := batch ++ [stageRecord commodity_id market_id r]
      if BATCH_SIZE ≤ batch1.length then
        let bres := execute_batch_insert fm s2 batch1
        let rec1 := insertLoop fm rest bres.2 []
        (bres.1 + rec1.1, rec1.2.1, batch1 :: rec1.2.2)
      else
        insertLoop fm rest s2 batch1

/-- Embeds `DatabaseManager.insert_price_records`: returns the inserted
count and the updated store. -/
def insert_price_records (fm : FailureModel) (s : DBState) (records : List ScrapedRecord) :
    Nat × DBState :=
  if records.isEmpty then (0, s)
  else
    let res := insertLoop fm records s []
    (res.1, res.2.1)

/-! ## Ingestion coordinator (`KAMISScraper.run`, kamis.py lines 461-492) -/

structure Product where
  pid : Nat
  name : String
  deriving DecidableEq, Repr

/-- The external page source: the product-list fetch and, per product id,
the per-product page fetch together with the data-table search. -/
structure Oracle where
  productList : Except String (List Product)
  fetchTable : Nat → Except String (Option HtmlTable)

/-- The per-product loop of `run`: scrape, then insert when non-empty,
accumulating the inserted count. -/
def runProducts (fm : FailureModel) (o : Oracle) (today : PyDate) :
    List Product → DBState → Nat × DBState
  | [], s => (0, s)
  | p :: ps, s =>
    let records := scrape_product (o.fetchTable p.pid) p.name today
    let step := if records.isEmpty then (0, s) else insert_price_records fm s records
    let rest := runProducts fm o today ps step.2
    (step.1 + rest.1, rest.2)

/-- Embeds `KAMISScraper.run`: a product-list fetch failure propagates
(`except ... raise`); otherwise the optional name filter is applied and the
products are processed in order. -/
def run (fm : FailureModel) (o : Oracle) (filterNames : Option (List String))
    (today : PyDate) (s : DBState) : Except String (Nat × DBState) :=
  match o.productList with
  | Except.error e => Except.error e
  | Except.ok products =>
    let selected := match filterNames with
      | some names => products.filter (fun p => names.contains p.name)
      | none => products
    Except.ok (runProducts fm o today selected s)

/-! ## Helper lemmas -/

theorem parse_date_go_eq_firstSome (today : PyDate) (value : String) (l : List DateFmt) :
    parse_date_go today value l =
      (firstSome (fun fmt => tryParseFmt fmt (pyStrip value)) l).getD today := by
  induction l with
  | nil => rfl
  | cons fmt rest ih =>
    simp only [parse_date_go, firstSome]
    cases tryParseFmt fmt (pyStrip value) with
    | some d => rfl
    | none => exact ih

theorem firstSome_eq_none {α β : Type} (f : α → Option β) (l : List α)
    (h : ∀ a ∈ l, f a = none) : firstSome f l = none := by
  induction l with
  | nil => rfl
  | cons a rest ih =>
    simp only [firstSome]
    rw [h a (List.mem_cons_self a rest)]
    exact ih (fun x hx => h x (List.mem_cons_of_mem a hx))

theorem decFloat_eq_zero_iff (d : PyDecimal) : decFloat d = 0 ↔ d.mantissa = 0 := by
  unfold decFloat
  rw [div_eq_zero_iff]
  constructor
  · rintro (h | h)
    · exact_mod_cast h
    · exact absurd h (pow_ne_zero _ (by norm_num))
  · intro h
    left
    exact_mod_cast h

theorem pyFloatOrNone_spec (v : Option PyDecimal) :
    pyFloatOrNone v =
      (match v with
       | some d => if decFloat d = 0 then none else some (decFloat d)
       | none => none) := by
  cases v with
  | none => rfl
  | some d =>
    simp only [pyFloatOrNone]
    rcases eq_or_ne d.mantissa 0 with h | h
    · rw [if_pos (by simpa using h), if_pos ((decFloat_eq_zero_iff d).mpr h)]
    · rw [if_neg (by simpa using h), if_neg (fun hc => h ((decFloat_eq_zero_iff d).mp hc))]

/-! ## C4: price parsing -/

/-- C4.  `parse_price` treats `""`, `"-"`, `"N/A"` as absent; on any other
input it strips every character that is not a digit or a decimal point and
parses the remainder as a decimal (`decOfDigitsDot`), absent when the
cleaned string is empty or not a valid number; `parse_price "Ksh 1,234.50"`
is the decimal 1234.50; the function is total, so it never raises. -/
theorem parse_price_spec :
    parse_price "" = none ∧ parse_price "-" = none ∧ parse_price "N/A" = none ∧
    parse_price "Ksh 1,234.50" = some ⟨123450, 2⟩ ∧
    decFloat ⟨123450, 2⟩ = (1234.50 : ℚ) ∧
    ∀ value : String, parse_price value =
      if value = "" ∨ value = "-" ∨ value = "N/A" then none
      else decOfDigitsDot (value.data.filter (fun c => c.isDigit || c == '.')) := by
  refine ⟨by decide, by decide, by decide, by decide, by norm_num [decFloat], ?_⟩
  intro value
  by_cases h : value = "" ∨ value = "-" ∨ value = "N/A"
  · rw [if_pos h]
    rcases h with h | h | h <;> subst h <;> rfl
  · rw [if_neg h]
    push_neg at h
    obtain ⟨h1, h2, h3⟩ := h
    simp only [parse_price]
    rw [if_neg (by simp [h1, h2, h3])]
    by_cases hc : (List.filter (fun c => c.isDigit || c == '.') value.data).isEmpty = true
    · rw [if_pos hc, List.isEmpty_iff.mp hc]
      decide
    · rw [if_neg hc]

/-! ## C5: date parsing -/

/-- C5.  `parse_date` tries the fixed ordered pattern list
`YYYY-MM-DD`, `DD/MM/YYYY`, `DD-MM-YYYY`, `MM/DD/YYYY` on the trimmed
input; the first pattern that parses wins (`firstSome` over
`strptimeFormats`); when none matches the result is the current processing
date `today`.  The function is total by construction, so an unparseable
date is never an error. -/
theorem parse_date_spec :
    (∀ today value, parse_date today value =
       (firstSome (fun fmt => tryParseFmt fmt (pyStrip value)) strptimeFormats).getD today) ∧
    (∀ today value, (∀ fmt ∈ strptimeFormats, tryParseFmt fmt (pyStrip value) = none) →
       parse_date today value = today) ∧
    strptimeFormats =
      [⟨DateField.Y, DateField.M, DateField.D, '-'⟩,
       ⟨DateField.D, DateField.M, DateField.Y, '/'⟩,
       ⟨DateField.D, DateField.M, DateField.Y, '-'⟩,
       ⟨DateField.M, DateField.D, DateField.Y, '/'⟩] ∧
    parse_date ⟨2026, 10, 12⟩ "2024-03-15" = ⟨2024, 3, 15⟩ ∧
    parse_date ⟨2026, 10, 12⟩ "15/03/2024" = ⟨2024, 3, 15⟩ ∧
    parse_date ⟨2026, 10, 12⟩ " 03/15/2024 " = ⟨2024, 3, 15⟩ ∧
    parse_date ⟨2026, 10, 12⟩ "2024-02-30" = ⟨2026, 10, 12⟩ ∧
    parse_date ⟨2026, 10, 12⟩ "not a date" = ⟨2026, 10, 12⟩ := by
  refine ⟨?_, ?_, rfl, by decide, by decide, by decide, by decide, by decide⟩
  · intro today value
    exact parse_date_go_eq_firstSome today value strptimeFormats
  · intro today value h
    rw [parse_date, parse_date_go_eq_firstSome, firstSome_eq_none _ _ h]
    rfl

/-- C5 witness: the unparseable input `"not a date"` fails all four
patterns, and `parse_date` then returns the processing date. -/
theorem parse_date_spec_witness :
    (∀ fmt ∈ strptimeFormats, tryParseFmt fmt (pyStrip "not a date") = none) ∧
    parse_date ⟨2026, 10, 12⟩ "not a date" = ⟨2026, 10, 12⟩ :=
  ⟨by decide, parse_date_spec.2.1 ⟨2026, 10, 12⟩ "not a date" (by decide)⟩

/-! ## C6: market/county resolution -/

/-- C6.  The resolver returns the spec's three examples exactly; but the
first pattern's separator class consists of `-` and the three characters of
a mis-encoded en-dash, not a genuine en-dash, so an input joined by a real
en-dash (U+2013) falls through every pattern and comes back whole with
county `"Unknown"` instead of being split. -/
theorem extract_county_examples :
    extract_county_from_market "Wakulima - Nairobi" = ("Wakulima", "Nairobi") ∧
    extract_county_from_market "Kongowea (Mombasa)" = ("Kongowea", "Mombasa") ∧
    extract_county_from_market "Unnamed Market" = ("Unnamed Market", "Unknown") ∧
    sepClass1 = ['-', 'â', '€', '“'] ∧ sepClass1.contains '–' = false ∧
    extract_county_from_market "Wakulima – Nairobi" = ("Wakulima – Nairobi", "Unknown") := by
  refine ⟨by decide, by decide, by decide, rfl, by decide, by decide⟩

/-! ## C10: zero prices stored as null -/

/-- C10.  When a record is staged (`insert_price_records` lines 214-224),
each of the three numeric columns is null exactly when the parsed value is
absent or decimal zero, and otherwise the exact value of `float(...)`:
Python truthiness `float(x) if x else None` sends `Decimal("0.00")` to
`None` just like an unparseable cell. -/
theorem stageRecord_zero_null :
    (∀ cid mid r, (stageRecord cid mid r).wholesale_price =
       (match r.wholesale_price with
        | some d => if decFloat d = 0 then none else some (decFloat d)
        | none => none) ∧
      (stageRecord cid mid r).retail_price =
       (match r.retail_price with
        | some d => if decFloat d = 0 then none else some (decFloat d)
        | none => none) ∧
      (stageRecord cid mid r).supply_volume =
       (match r.supply_volume with
        | some d => if decFloat d = 0 then none else some (decFloat d)
        | none => none)) ∧
    (stageRecord 1 1
      { product_name := "Maize", market_name := "Wakulima", county_name := "Nairobi",
        classification := none, grade := none, sex := none,
        wholesale_price := some ⟨0, 2⟩, retail_price := some ⟨1250, 1⟩,
        supply_volume := none, price_date := ⟨2024, 1, 10⟩ }).wholesale_price = none := by
  refine ⟨fun cid mid r => ⟨?_, ?_, ?_⟩, by decide⟩ <;>
    simp only [stageRecord] <;> exact pyFloatOrNone_spec _

/-! ## C1: header mapping -/

/-- The spec's example header list, case-folded and trimmed exactly as
`scrape_product` does before calling `find_column_index`. -/
def exampleHeaders : List String :=
  ["Market Name", "County", "Wholesale Price", "Retail Price", "Supply Volume", "Date"].map
    (fun h => pyLower (pyStrip h))

theorem find?_of_mem_nodup (l : List (String × List String)) (t : String) (v : List String)
    (hn : (l.map Prod.fst).Nodup) (hm : (t, v) ∈ l) :
    l.find? (fun p => p.1 == t) = some (t, v) := by
  induction l with
  | nil => cases hm
  | cons a rest ih =>
    rw [List.map_cons, List.nodup_cons] at hn
    rcases List.mem_cons.mp hm with h | h
    · subst h
      simp [List.find?]
    · have hne : a.1 ≠ t := by
        intro he
        exact hn.1 (he ▸ List.mem_map_of_mem Prod.fst h)
      have : (a.1 == t) = false := by simpa using hne
      simp only [List.find?, this]
      exact ih hn.2 h

theorem firstMatchIdx_none_all (variants : List String) (hs : List String)
    (he : firstMatchIdx variants hs = none) :
    ∀ h ∈ hs, (variants.any fun v => strContainsSub h v) = false := by
  induction hs with
  | nil => intro h hh; cases hh
  | cons h rest ih =>
    intro h2 hh2
    simp only [firstMatchIdx] at he
    by_cases hc : (variants.any fun v => strContainsSub h v) = true
    · rw [if_pos hc] at he; cases he
    · rw [if_neg hc] at he
      rcases List.mem_cons.mp hh2 with he2 | he2
      · subst he2; simpa using hc
      · cases hi : firstMatchIdx variants rest with
        | none => exact ih hi h2 he2
        | some i => rw [hi] at he; exact Option.noConfusion he

theorem firstMatchIdx_some (variants : List String) (hs : List String) (i : Nat)
    (he : firstMatchIdx variants hs = some i) :
    ∃ h, hs.get? i = some h ∧ (variants.any fun v => strContainsSub h v) = true ∧
      ∀ j hj, j < i → hs.get? j = some hj →
        (variants.any fun v => strContainsSub hj v) = false := by
  induction hs generalizing i with
  | nil => cases he
  | cons h rest ih =>
    simp only [firstMatchIdx] at he
    by_cases hc : (variants.any fun v => strContainsSub h v) = true
    · rw [if_pos hc] at he
      cases he
      exact ⟨h, rfl, hc, fun j hj hji => absurd hji (Nat.not_lt_zero j)⟩
    · rw [if_neg hc] at he
      cases hi : firstMatchIdx variants rest with
      | none => rw [hi] at he; cases he
      | some i0 =>
        rw [hi] at he
        cases he
        obtain ⟨hh, hget, hany, hbefore⟩ := ih i0 hi
        refine ⟨hh, by simpa using hget, hany, ?_⟩
        intro j hj hji hgetj
        cases j with
        | zero =>
          cases hgetj
          simpa using hc
        | succ j0 =>
          exact hbefore j0 hj (Nat.lt_of_succ_lt_succ hji) (by simpa using hgetj)

/-- C1 counterexample: on the spec's example header list the mapper does
NOT resolve the retail field to column 3 (`"price"` is one of retail's
synonyms and already occurs inside header 2, `"wholesale price"`). -/
theorem find_column_index_retail_ne_three :
    find_column_index exampleHeaders "retail" = 2 ∧
    (find_column_index exampleHeaders "retail" == 3) = false := by decide

/-- C1 amended.  On the example header list the mapper resolves market to 0,
county to 1, wholesale to 2, retail to 2 (not 3: the synonym `"price"`
already matches `"wholesale price"`), volume to 4, date to 5, and
classification, grade, sex to -1.  In general, for every header list and
every semantic field of `header_map`, the result is the index of the first
header containing one of the field's synonyms as a substring, or -1 when no
header matches. -/
theorem find_column_index_spec :
    (["market", "county", "classification", "grade", "sex", "wholesale", "retail",
        "volume", "date"].map (find_column_index exampleHeaders)) =
      [0, 1, -1, -1, -1, 2, 2, 4, 5] ∧
    ∀ headers target variants, (target, variants) ∈ header_map →
      (find_column_index headers target = -1 ∧
         ∀ h ∈ headers, ∀ v ∈ variants, strContainsSub h v = false) ∨
      (∃ i h, find_column_index headers target = Int.ofNat i ∧
         headers.get? i = some h ∧ (∃ v ∈ variants, strContainsSub h v = true) ∧
         ∀ j hj, j < i → headers.get? j = some hj →
           ∀ v ∈ variants, strContainsSub hj v = false) := by
  constructor
  · decide
  · intro headers target variants hm
    have hfind : header_map.find? (fun p => p.1 == target) = some (target, variants) :=
      find?_of_mem_nodup header_map target variants (by decide) hm
    cases hidx : firstMatchIdx variants headers with
    | none =>
      left
      constructor
      · simp only [find_column_index, hfind, hidx]
      · intro h hh v hv
        have := firstMatchIdx_none_all variants headers hidx h hh
        rw [List.any_eq_false] at this
        simpa using this v hv
    | some i =>
      right
      obtain ⟨h, hget, hany, hbefore⟩ := firstMatchIdx_some variants headers i hidx
      refine ⟨i, h, ?_, hget, ?_, ?_⟩
      · simp only [find_column_index, hfind, hidx]
      · exact List.any_eq_true.mp hany
      · intro j hj hji hgetj v hv
        have := hbefore j hj hji hgetj
        rw [List.any_eq_false] at this
        simpa using this v hv

/-- C1 witness: instantiating the general first-match property at the
example header list and the retail field. -/
theorem find_column_index_spec_witness :
    ("retail", ["retail price", "retail", "price"]) ∈ header_map ∧
    ((find_column_index exampleHeaders "retail" = -1 ∧
        ∀ h ∈ exampleHeaders, ∀ v ∈ ["retail price", "retail", "price"],
          strContainsSub h v = false) ∨
      (∃ i h, find_column_index exampleHeaders "retail" = Int.ofNat i ∧
        exampleHeaders.get? i = some h ∧
        (∃ v ∈ ["retail price", "retail", "price"], strContainsSub h v = true) ∧
        ∀ j hj, j < i → exampleHeaders.get? j = some hj →
          ∀ v ∈ ["retail price", "retail", "price"], strContainsSub hj v = false)) :=
  ⟨by decide,
   find_column_index_spec.2 exampleHeaders "retail" ["retail price", "retail", "price"]
     (by decide)⟩

/-! ## C3: idempotent lookup-or-create -/

theorem cacheLookup_append_self (c : List (String × Nat)) (n : String) (i : Nat)
    (h : cacheLookup c n = none) : cacheLookup (c ++ [(n, i)]) n = some i := by
  induction c with
  | nil => simp [cacheLookup]
  | cons e rest ih =>
    simp only [cacheLookup, List.cons_append] at h ⊢
    by_cases he : (e.1 == n) = true
    · rw [if_pos he] at h; cases h
    · rw [if_neg he] at h ⊢
      exact ih h

theorem get_or_create_county_pair (s : DBState) (n1 n2 : String)
    (h : normName n1 = normName n2) :
    get_or_create_county (get_or_create_county s n1).2 n2 = get_or_create_county s n1 ∧
    ∃ t, (get_or_create_county s n1).2.counties = s.counties ++ t ∧ t.length ≤ 1 := by
  cases hc : cacheLookup s.countyCache (normName n1) with
  | some i =>
    have h1 : get_or_create_county s n1 = (i, s) := by
      simp only [get_or_create_county, hc]
    have h2 : get_or_create_county s n2 = (i, s) := by
      simp only [get_or_create_county, ← h, hc]
    rw [h1]
    exact ⟨h2, [], by simp, by simp⟩
  | none =>
    cases hs : selectId (fun r => r == normName n1) s.counties with
    | some i =>
      have h1 : get_or_create_county s n1 =
          (i, { s with countyCache := s.countyCache ++ [(normName n1, i)] }) := by
        simp only [get_or_create_county, hc, hs]
      have h2 : get_or_create_county
          { s with countyCache := s.countyCache ++ [(normName n1, i)] } n2 =
          (i, { s with countyCache := s.countyCache ++ [(normName n1, i)] }) := by
        simp only [get_or_create_county, ← h]
        rw [cacheLookup_append_self s.countyCache (normName n1) i hc]
      rw [h1]
      exact ⟨h2, [], by simp, by simp⟩
    | none =>
      have h1 : get_or_create_county s n1 =
          ((s.counties ++ [normName n1]).length,
            { s with counties := s.counties ++ [normName n1],
                     countyCache := s.countyCache ++
                       [(normName n1, (s.counties ++ [normName n1]).length)] }) := by
        simp only [get_or_create_county, hc, hs]
      have h2 : get_or_create_county
          { s with counties := s.counties ++ [normName n1],
                   countyCache := s.countyCache ++
                     [(normName n1, (s.counties ++ [normName n1]).length)] } n2 =
          ((s.counties ++ [normName n1]).length,
            { s with counties := s.counties ++ [normName n1],
                     countyCache := s.countyCache ++
                       [(normName n1, (s.counties ++ [normName n1]).length)] }) := by
        simp only [get_or_create_county, ← h]
        rw [cacheLookup_append_self s.countyCache (normName n1) _ hc]
      rw [h1]
      exact ⟨h2, [normName n1], by simp, by simp⟩

theorem get_or_create_commodity_pair (s : DBState) (n1 n2 : String)
    (h : normName n1 = normName n2) :
    get_or_create_commodity (get_or_create_commodity s n1).2 n2 =
      get_or_create_commodity s n1 ∧
    ∃ t, (get_or_create_commodity s n1).2.commodities = s.commodities ++ t ∧
      t.length ≤ 1 := by
  cases hc : cacheLookup s.commodityCache (normName n1) with
  | some i =>
    have h1 : get_or_create_commodity s n1 = (i, s) := by
      simp only [get_or_create_commodity, hc]
    have h2 : get_or_create_commodity s n2 = (i, s) := by
      simp only [get_or_create_commodity, ← h, hc]
    rw [h1]
    exact ⟨h2, [], by simp, by simp⟩
  | none =>
    cases hs : selectId (fun r => r.1 == normName n1) s.commodities with
    | some i =>
      have h1 : get_or_create_commodity s n1 =
          (i, { s with commodityCache := s.commodityCache ++ [(normName n1, i)] }) := by
        simp only [get_or_create_commodity, hc, hs]
      have h2 : get_or_create_commodity
          { s with commodityCache := s.commodityCache ++ [(normName n1, i)] } n2 =
          (i, { s with commodityCache := s.commodityCache ++ [(normName n1, i)] }) := by
        simp only [get_or_create_commodity, ← h]
        rw [cacheLookup_append_self s.commodityCache (normName n1) i hc]
      rw [h1]
      exact ⟨h2, [], by simp, by simp⟩
    | none =>
      have h1 : get_or_create_commodity s n1 =
          ((s.commodities ++ [(normName n1, categorize_product s (normName n1))]).length,
            { s with commodities :=
                       s.commodities ++ [(normName n1, categorize_product s (normName n1))],
                     commodityCache := s.commodityCache ++
                       [(normName n1,
                         (s.commodities ++
                           [(normName n1, categorize_product s (normName n1))]).length)] }) := by
        simp only [get_or_create_commodity, hc, hs]
      have h2 : get_or_create_commodity
          { s with commodities :=
                     s.commodities ++ [(normName n1, categorize_product s (normName n1))],
                   commodityCache := s.commodityCache ++
                     [(normName n1,
                       (s.commodities ++
                         [(normName n1, categorize_product s (normName n1))]).length)] } n2 =
          ((s.commodities ++ [(normName n1, categorize_product s (normName n1))]).length,
            { s with commodities :=
                       s.commodities ++ [(normName n1, categorize_product s (normName n1))],
                     commodityCache := s.commodityCache ++
                       [(normName n1,
                         (s.commodities ++
                           [(normName n1, categorize_product s (normName n1))]).length)] }) := by
        simp only [get_or_create_commodity, ← h]
        rw [cacheLookup_append_self s.commodityCache (normName n1) _ hc]
      rw [h1]
      exact ⟨h2, [(normName n1, categorize_product s (normName n1))], by simp, by simp⟩

/-- `_get_or_create_county` touches only the counties table and the county
cache. -/
theorem get_or_create_county_frame (s : DBState) (n : String) :
    (get_or_create_county s n).2.markets = s.markets ∧
    (get_or_create_county s n).2.commodities = s.commodities ∧
    (get_or_create_county s n).2.marketCache = s.marketCache ∧
    (get_or_create_county s n).2.commodityCache = s.commodityCache ∧
    (get_or_create_county s n).2.priceRecords = s.priceRecords ∧
    (get_or_create_county s n).2.categories = s.categories := by
  simp only [get_or_create_county]
  split
  · exact ⟨rfl, rfl, rfl, rfl, rfl, rfl⟩
  · split
    · exact ⟨rfl, rfl, rfl, rfl, rfl, rfl⟩
    · exact ⟨rfl, rfl, rfl, rfl, rfl, rfl⟩

theorem get_or_create_market_pair (s : DBState) (m1 c1 m2 c2 : String)
    (hm : normName m1 = normName m2) (hc : normName c1 = normName c2) :
    get_or_create_market (get_or_create_market s m1 c1).2 m2 c2 =
      get_or_create_market s m1 c1 ∧
    ∃ t, (get_or_create_market s m1 c1).2.markets = s.markets ++ t ∧ t.length ≤ 1 := by
  have hkey : marketKey m2 c2 = marketKey m1 c1 := by
    unfold marketKey
    rw [hm, hc]
  cases hk : cacheLookup s.marketCache (marketKey m1 c1) with
  | some i =>
    have h1 : get_or_create_market s m1 c1 = (i, s) := by
      simp only [get_or_create_market, hk]
    have h2 : get_or_create_market s m2 c2 = (i, s) := by
      simp only [get_or_create_market, hkey, hk]
    rw [h1]
    exact ⟨h2, [], by simp, by simp⟩
  | none =>
    have hfr := get_or_create_county_frame s c1
    cases hs : selectId
        (fun r => r.1 == normName m1 && r.2 == (get_or_create_county s c1).1)
        (get_or_create_county s c1).2.markets with
    | some i =>
      have h1 : get_or_create_market s m1 c1 =
          (i, { (get_or_create_county s c1).2 with
                  marketCache := (get_or_create_county s c1).2.marketCache ++
                    [(marketKey m1 c1, i)] }) := by
        simp only [get_or_create_market, hk, hs]
      have h2 : get_or_create_market
          { (get_or_create_county s c1).2 with
              marketCache := (get_or_create_county s c1).2.marketCache ++
                [(marketKey m1 c1, i)] } m2 c2 =
          (i, { (get_or_create_county s c1).2 with
                  marketCache := (get_or_create_county s c1).2.marketCache ++
                    [(marketKey m1 c1, i)] }) := by
        simp only [get_or_create_market, hkey]
        rw [cacheLookup_append_self _ (marketKey m1 c1) i (by rw [hfr.2.2.1]; exact hk)]
      rw [h1]
      refine ⟨h2, [], ?_, by simp⟩
      simp [hfr.1]
    | none =>
      have h1 : get_or_create_market s m1 c1 =
          (((get_or_create_county s c1).2.markets ++
              [(normName m1, (get_or_create_county s c1).1)]).length,
            { (get_or_create_county s c1).2 with
                markets := (get_or_create_county s c1).2.markets ++
                  [(normName m1, (get_or_create_county s c1).1)],
                marketCache := (get_or_create_county s c1).2.marketCache ++
                  [(marketKey m1 c1,
                    ((get_or_create_county s c1).2.markets ++
                      [(normName m1, (get_or_create_county s c1).1)]).length)] }) := by
        simp only [get_or_create_market, hk, hs]
      have h2 : get_or_create_market
          { (get_or_create_county s c1).2 with
              markets := (get_or_create_county s c1).2.markets ++
                [(normName m1, (get_or_create_county s c1).1)],
              marketCache := (get_or_create_county s c1).2.marketCache ++
                [(marketKey m1 c1,
                  ((get_or_create_county s c1).2.markets ++
                    [(normName m1, (get_or_create_county s c1).1)]).length)] } m2 c2 =
          (((get_or_create_county s c1).2.markets ++
              [(normName m1, (get_or_create_county s c1).1)]).length,
            { (get_or_create_county s c1).2 with
                markets := (get_or_create_county s c1).2.markets ++
                  [(normName m1, (get_or_create_county s c1).1)],
                marketCache := (get_or_create_county s c1).2.marketCache ++
                  [(marketKey m1 c1,
                    ((get_or_create_county s c1).2.markets ++
                      [(normName m1, (get_or_create_county s c1).1)]).length)] }) := by
        simp only [get_or_create_market, hkey]
        rw [cacheLookup_append_self _ (marketKey m1 c1) _ (by rw [hfr.2.2.1]; exact hk)]
      rw [h1]
      refine ⟨h2, [(normName m1, (get_or_create_county s c1).1)], ?_, by simp⟩
      simp [hfr.1]

/-- C3.  Lookup-or-create is idempotent for County, Commodity and Market:
for input names equal after trimming and title-casing (and, for markets,
the same normalized county name), a repeated call returns the same
surrogate id and leaves the state completely unchanged (so no second insert
is ever issued for that normalized key), while the first call appends at
most one row to the corresponding reference table and never mutates or
deletes existing rows. -/
theorem get_or_create_idempotent :
    (∀ s n1 n2, normName n1 = normName n2 →
      get_or_create_county (get_or_create_county s n1).2 n2 = get_or_create_county s n1 ∧
      ∃ t, (get_or_create_county s n1).2.counties = s.counties ++ t ∧ t.length ≤ 1) ∧
    (∀ s n1 n2, normName n1 = normName n2 →
      get_or_create_commodity (get_or_create_commodity s n1).2 n2 =
        get_or_create_commodity s n1 ∧
      ∃ t, (get_or_create_commodity s n1).2.commodities = s.commodities ++ t ∧
        t.length ≤ 1) ∧
    (∀ s m1 c1 m2 c2, normName m1 = normName m2 → normName c1 = normName c2 →
      get_or_create_market (get_or_create_market s m1 c1).2 m2 c2 =
        get_or_create_market s m1 c1 ∧
      ∃ t, (get_or_create_market s m1 c1).2.markets = s.markets ++ t ∧ t.length ≤ 1) :=
  ⟨get_or_create_county_pair,
   get_or_create_commodity_pair,
   fun s m1 c1 m2 c2 hm hc => get_or_create_market_pair s m1 c1 m2 c2 hm hc⟩

/-- The store right after `DatabaseManager.__init__` against an empty
database: categories seeded by `_initialize_categories`, all other tables
and all caches empty. -/
def dbS0 : DBState :=
  { categories := ["Grains", "Vegetables", "Fruits", "Livestock", "Fish", "Other"],
    counties := [], commodities := [], markets := [], priceRecords := [],
    countyCache := [], commodityCache := [], marketCache := [] }

/-- C3 witness: two spellings of the same county name normalize
identically, so the second call returns the first call's id and leaves the
state unchanged, the first call having appended at most one row. -/
theorem get_or_create_idempotent_witness :
    normName "  nairobi" = normName "NAIROBI" ∧
    (get_or_create_county (get_or_create_county dbS0 "  nairobi").2 "NAIROBI" =
       get_or_create_county dbS0 "  nairobi" ∧
     ∃ t, (get_or_create_county dbS0 "  nairobi").2.counties = dbS0.counties ++ t ∧
       t.length ≤ 1) :=
  ⟨by decide, get_or_create_idempotent.1 dbS0 "  nairobi" "NAIROBI" (by decide)⟩

/-! ## C7: run-level error handling -/

/-- The per-product inserted counts along a run, in processing order. -/
def perProductCounts (fm : FailureModel) (o : Oracle) (today : PyDate) :
    List Product → DBState → List Nat
  | [], _ => []
  | p :: ps, s =>
    let records := scrape_product (o.fetchTable p.pid) p.name today
    let step := if records.isEmpty then (0, s) else insert_price_records fm s records
    step.1 :: perProductCounts fm o today ps step.2

theorem runProducts_sum (fm : FailureModel) (o : Oracle) (today : PyDate) :
    ∀ ps s, (runProducts fm o today ps s).1 = (perProductCounts fm o today ps s).sum := by
  intro ps
  induction ps with
  | nil => intro s; rfl
  | cons p rest ih =>
    intro s
    simp only [runProducts, perProductCounts, List.sum_cons]
    rw [ih]

/-- C7.  `run` returns the sum of the per-product inserted counts; a
product-list fetch error propagates unchanged to the caller; a fetch (or
extraction) error for a single product is absorbed at the `scrape_product`
boundary, contributes zero records, and leaves the processing of the
remaining products untouched. -/
theorem run_error_handling :
    (∀ fm o filterNames today s e, o.productList = Except.error e →
       run fm o filterNames today s = Except.error e) ∧
    (∀ fm o filterNames today s ps, o.productList = Except.ok ps →
       ∃ total s2, run fm o filterNames today s = Except.ok (total, s2) ∧
         total = (perProductCounts fm o today
           (match filterNames with
            | some names => ps.filter (fun p => names.contains p.name)
            | none => ps) s).sum) ∧
    (∀ fetch pname today e, fetch = Except.error e → scrape_product fetch pname today = []) ∧
    (∀ fm o today p ps s e, o.fetchTable p.pid = Except.error e →
       runProducts fm o today (p :: ps) s = runProducts fm o today ps s) := by
  refine ⟨?_, ?_, ?_, ?_⟩
  · intro fm o filterNames today s e he
    simp only [run, he]
  · intro fm o filterNames today s ps hp
    refine ⟨(runProducts fm o today
        (match filterNames with
         | some names => ps.filter (fun p => names.contains p.name)
         | none => ps) s).1,
      (runProducts fm o today
        (match filterNames with
         | some names => ps.filter (fun p => names.contains p.name)
         | none => ps) s).2, ?_, ?_⟩
    · simp only [run, hp, Prod.mk.eta]
    cases filterNames with
    | none => exact runProducts_sum fm o today ps s
    | some names => exact runProducts_sum fm o today (ps.filter (fun p => names.contains p.name)) s
  · intro fetch pname today e he
    rw [he]
    rfl
  · intro fm o today p ps s e he
    simp only [runProducts, scrape_product, he]
    simp [runProducts]

/-- C7 witness: a store whose product-list fetch fails makes `run` fail
with the same error, while a per-product fetch failure only zeroes that
product's contribution. -/
theorem run_error_handling_witness :
    run noFailures ⟨Except.error "connection reset", fun _ => Except.ok none⟩ none
        ⟨2026, 10, 12⟩ dbS0 = Except.error "connection reset" ∧
    runProducts noFailures ⟨Except.ok [⟨7, "Dry Maize"⟩], fun _ => Except.error "timeout"⟩
        ⟨2026, 10, 12⟩ [⟨7, "Dry Maize"⟩] dbS0 =
      runProducts noFailures ⟨Except.ok [⟨7, "Dry Maize"⟩], fun _ => Except.error "timeout"⟩
        ⟨2026, 10, 12⟩ [] dbS0 :=
  ⟨run_error_handling.1 noFailures ⟨Except.error "connection reset", fun _ => Except.ok none⟩
      none ⟨2026, 10, 12⟩ dbS0 "connection reset" rfl,
   run_error_handling.2.2.2 noFailures
      ⟨Except.ok [⟨7, "Dry Maize"⟩], fun _ => Except.error "timeout"⟩ ⟨2026, 10, 12⟩
      ⟨7, "Dry Maize"⟩ [] dbS0 "timeout" rfl⟩

/-! ## C8: batching and bulk-insert fallback -/

/-- Splits a list into consecutive `BATCH_SIZE`-sized chunks, the final
chunk holding the non-empty remainder. -/
def chunks100 : List PriceRow → List (List PriceRow)
  | [] => []
  | r :: rest => ((r :: rest).take BATCH_SIZE) :: chunks100 ((r :: rest).drop BATCH_SIZE)
  termination_by l => l.length
  decreasing_by simp [BATCH_SIZE]; omega

theorem chunks100_nil : chunks100 [] = [] := by
  rw [chunks100]

theorem chunks100_of_ne_nil (l : List PriceRow) (hne : l ≠ []) :
    chunks100 l = l.take BATCH_SIZE :: chunks100 (l.drop BATCH_SIZE) := by
  cases l with
  | nil => exact absurd rfl hne
  | cons a as => rw [chunks100]

/-- The count returned by one `_execute_batch_insert` call. -/
def execBatchCount (fm : FailureModel) (batch : List PriceRow) : Nat :=
  if fm.bulkFails batch then (batch.filter (fun r => !fm.rowFails r)).length
  else batch.length

theorem execute_batch_insert_count (fm : FailureModel) (s : DBState) (batch : List PriceRow) :
    (execute_batch_insert fm s batch).1 = execBatchCount fm batch := by
  unfold execute_batch_insert execBatchCount
  split <;> rfl

theorem insertLoop_chunks (fm : FailureModel) :
    ∀ (records : List ScrapedRecord) (s : DBState) (batch : List PriceRow),
      batch.length < BATCH_SIZE →
      (insertLoop fm records s batch).2.2 =
        chunks100 ((insertLoop fm records s batch).2.2.flatten) ∧
      (insertLoop fm records s batch).1 =
        (((insertLoop fm records s batch).2.2).map (execBatchCount fm)).sum := by
  intro records
  induction records with
  | nil =>
    intro s batch hlen
    by_cases hb : batch.isEmpty = true
    · rw [List.isEmpty_iff.mp hb]
      simp [insertLoop, chunks100]
    · simp only [insertLoop, if_neg hb]
      have hne : batch ≠ [] := fun h => hb (by rw [h]; rfl)
      constructor
      · show [batch] = chunks100 ([batch].flatten)
        rw [List.flatten, List.flatten, List.append_nil,
            chunks100_of_ne_nil batch hne,
            List.take_of_length_le (Nat.le_of_lt hlen),
            List.drop_eq_nil_of_le (Nat.le_of_lt hlen), chunks100_nil]
      · show (execute_batch_insert fm s batch).1 = ([batch].map (execBatchCount fm)).sum
        rw [execute_batch_insert_count]
        simp
  | cons r rest ih =>
    intro s batch hlen
    simp only [insertLoop]
    by_cases hd : dedupHit
        (get_or_create_market (get_or_create_commodity s r.product_name).2
          r.market_name r.county_name).2
        (get_or_create_commodity s r.product_name).1
        (get_or_create_market (get_or_create_commodity s r.product_name).2
          r.market_name r.county_name).1 r.price_date = true
    · rw [if_pos hd]
      exact ih _ _ hlen
    · rw [if_neg hd]
      set row := stageRecord
        (get_or_create_commodity s r.product_name).1
        (get_or_create_market (get_or_create_commodity s r.product_name).2
          r.market_name r.county_name).1 r with hrow
      by_cases hge : BATCH_SIZE ≤ (batch ++ [row]).length
      · rw [if_pos hge]
      
        have h100 : (batch ++ [row]).length = BATCH_SIZE := by
          have : (batch ++ [row]).length = batch.length + 1 := by simp
          omega
        have hzero : (0 : Nat) < BATCH_SIZE := by norm_num [BATCH_SIZE]
        obtain ⟨htr, hcnt⟩ := ih
          (execute_batch_insert fm
            (get_or_create_market (get_or_create_commodity s r.product_name).2
              r.market_name r.county_name).2 (batch ++ [row])).2 []
          (by simp [BATCH_SIZE])
        constructor
        · show (batch ++ [row]) :: _ = chunks100 (((batch ++ [row]) :: _).flatten)
          rw [List.flatten_cons]
          rw [chunks100_of_ne_nil _ (by
            intro hcontra
            have := congrArg List.length hcontra
            simp [h100] at this)]
          rw [← h100, List.take_left, List.drop_left]
          rw [← htr]
        · show (execute_batch_insert fm _ (batch ++ [row])).1 + _ =
            (((batch ++ [row]) :: _).map (execBatchCount fm)).sum
          rw [List.map_cons, List.sum_cons, execute_batch_insert_count, hcnt]
      · rw [if_neg hge]
        exact ih _ _ (by omega)

/-- C8.  `_execute_batch_insert` counts the whole batch on bulk success and,
on bulk failure, keeps and counts exactly the rows whose individual
fallback insert succeeds (failures are dropped, never counted, and never
abort the batch).  The staging loop of `insert_price_records` flushes
exactly the consecutive 100-row chunks of the staged sequence plus a final
non-empty remainder chunk (the flush trace equals `chunks100` of its own
concatenation), and the returned count is the sum of the per-flush
counts. -/
theorem insert_batching_spec :
    (∀ fm s batch, (execute_batch_insert fm s batch).1 =
       (if fm.bulkFails batch then (batch.filter (fun r => !fm.rowFails r)).length
        else batch.length) ∧
       (execute_batch_insert fm s batch).2.priceRecords =
         s.priceRecords ++ (if fm.bulkFails batch then batch.filter (fun r => !fm.rowFails r)
           else batch)) ∧
    (∀ fm records s,
       (insertLoop fm records s []).2.2 = chunks100 ((insertLoop fm records s []).2.2.flatten) ∧
       (insertLoop fm records s []).1 =
         (((insertLoop fm records s []).2.2).map (execBatchCount fm)).sum ∧
       insert_price_records fm s records =
         ((insertLoop fm records s []).1, (insertLoop fm records s []).2.1)) := by
  constructor
  · intro fm s batch
    constructor
    · rw [execute_batch_insert_count]; rfl
    · unfold execute_batch_insert
      split
      · rfl
      · rfl
  · intro fm records s
    have hmain := insertLoop_chunks fm records s [] (by norm_num [BATCH_SIZE])
    refine ⟨hmain.1, hmain.2, ?_⟩
    unfold insert_price_records
    by_cases hr : records.isEmpty = true
    · rw [if_pos hr, List.isEmpty_iff.mp hr]
      rfl
    · rw [if_neg hr]

/-! ## C9: extracted record fields -/

/-- A table with county, retail and date columns but no market column. -/
def noMarketTable : HtmlTable :=
  ⟨some ["County", "Retail Price", "Date"], some [["Nairobi", "50", "2024-01-10"]]⟩

/-- A table with no county column and a market cell that no resolver
pattern splits. -/
def unknownCountyTable : HtmlTable :=
  ⟨some ["Market", "Retail Price", "Date"], some [["Wakulima", "50", "2024-01-10"]]⟩

/-- C9 counterexample: when the header list maps no market column, the
extractor emits a record whose `market_name` is the empty string, so not
every emitted record has a non-empty market name. -/
theorem scrape_product_empty_market :
    ∃ r ∈ scrape_product (Except.ok (some noMarketTable)) "Maize" ⟨2026, 10, 12⟩,
      r.market_name = "" := by decide

theorem extractRow_county (m : IdxMap) (pname : String) (today : PyDate)
    (cells : List String) (rec : ScrapedRecord)
    (h : extractRow m pname today cells = Except.ok (some rec)) :
    rec.county_name ≠ "" := by
  unfold extractRow at h
  by_cases hlen : cells.length < 3
  · rw [if_pos hlen] at h
    simp at h
  · rw [if_neg hlen] at h
    simp only [bind, Except.bind, pure, Except.pure] at h
    repeat' split at h
    all_goals simp_all
    all_goals subst h
    · simp
    · assumption

theorem extractRowsGo_county (m : IdxMap) (pname : String) (today : PyDate) :
    ∀ (rows : List (List String)) (rs : List ScrapedRecord),
      extractRowsGo m pname today rows = Except.ok rs →
      ∀ r ∈ rs, r.county_name ≠ "" := by
  intro rows
  induction rows with
  | nil =>
    intro rs h r hr
    simp only [extractRowsGo] at h
    cases h
    cases hr
  | cons row rest ih =>
    intro rs h r hr
    simp only [extractRowsGo, bind, Except.bind] at h
    cases hrow : extractRow m pname today row with
    | error e => rw [hrow] at h; cases h
    | ok v =>
      rw [hrow] at h
      cases hrest : extractRowsGo m pname today rest with
      | error e => rw [hrest] at h; cases h
      | ok rs0 =>
        rw [hrest] at h
        cases v with
        | none =>
          cases h
          exact ih _ hrest r hr
        | some rec =>
          cases h
          rcases List.mem_cons.mp hr with he | he
          · subst he
            exact extractRow_county m pname today row r hrow
          · exact ih _ hrest r he

/-- C9 amended.  Every record emitted by the extractor has a non-empty
`county_name` (the sentinel `"Unknown"` substitutes for an undeterminable
or empty county); `product_name` and `market_name` are copied as-is and may
be empty, as the counterexample shows. -/
theorem scraped_county_nonempty :
    (∀ fetch pname today, ∀ r ∈ scrape_product fetch pname today, r.county_name ≠ "") ∧
    (∀ r ∈ scrape_product (Except.ok (some unknownCountyTable)) "Maize" ⟨2026, 10, 12⟩,
       r.county_name = "Unknown") := by
  constructor
  · intro fetch pname today r hr
    cases fetch with
    | error e => simp [scrape_product] at hr
    | ok tbl =>
      cases tbl with
      | none => simp [scrape_product] at hr
      | some t =>
        simp only [scrape_product] at hr
        cases hx : extractRecords t pname today with
        | error e => rw [hx] at hr; cases hr
        | ok rs =>
          rw [hx] at hr
          unfold extractRecords at hx
          cases ht : t.tbody with
          | none => rw [ht] at hx; cases hx; cases hr
          | some rows =>
            rw [ht] at hx
            exact extractRowsGo_county _ pname today rows rs hx r hr
  · decide

/-- C9 witness: the concrete record extracted from `unknownCountyTable` is
a member of the extractor's output and its county name, the sentinel
`"Unknown"`, is non-empty. -/
theorem scraped_county_nonempty_witness :
    (⟨"Maize", "Wakulima", "Unknown", none, none, none, none, some ⟨50, 0⟩, none,
        ⟨2024, 1, 10⟩⟩ : ScrapedRecord) ∈
      scrape_product (Except.ok (some unknownCountyTable)) "Maize" ⟨2026, 10, 12⟩ ∧
    (⟨"Maize", "Wakulima", "Unknown", none, none, none, none, some ⟨50, 0⟩, none,
        ⟨2024, 1, 10⟩⟩ : ScrapedRecord).county_name ≠ "" :=
  ⟨by decide,
   scraped_county_nonempty.1 (Except.ok (some unknownCountyTable)) "Maize" ⟨2026, 10, 12⟩ _
     (by decide)⟩

/-! ## C2: dedup key uniqueness

The dedup argument needs to know which normalized key each surrogate id
stands for.  `countyAt`, `commodityAt`, `marketAt` tie an id to the
normalized name(s) of the row it denotes (ids are row indices plus one),
and `WF` states that every cache entry is truthful in this sense. -/

def countyAt (s : DBState) (i : Nat) (n : String) : Prop :=
  1 ≤ i ∧ s.counties.get? (i - 1) = some n

def commodityAt (s : DBState) (i : Nat) (n : String) : Prop :=
  1 ≤ i ∧ ∃ row, s.commodities.get? (i - 1) = some row ∧ row.1 = n

def marketAt (s : DBState) (i : Nat) (k : String) : Prop :=
  1 ≤ i ∧ ∃ mrow, s.markets.get? (i - 1) = some mrow ∧ 1 ≤ mrow.2 ∧
    ∃ cname, s.counties.get? (mrow.2 - 1) = some cname ∧ k = mrow.1 ++ "_" ++ cname

/-- Cache well-formedness: each cached id denotes a row carrying the cached
normalized key. -/
def WF (s : DBState) : Prop :=
  (∀ e ∈ s.countyCache, countyAt s e.2 e.1) ∧
  (∀ e ∈ s.commodityCache, commodityAt s e.2 e.1) ∧
  (∀ e ∈ s.marketCache, marketAt s e.2 e.1)

/-- The reference tables only ever grow by appending. -/
def Extends (s s2 : DBState) : Prop :=
  (∃ t, s2.counties = s.counties ++ t) ∧
  (∃ t, s2.commodities = s.commodities ++ t) ∧
  (∃ t, s2.markets = s.markets ++ t)

theorem Extends.refl (s : DBState) : Extends s s :=
  ⟨⟨[], by simp⟩, ⟨[], by simp⟩, ⟨[], by simp⟩⟩

theorem Extends.trans {s1 s2 s3 : DBState} (h1 : Extends s1 s2) (h2 : Extends s2 s3) :
    Extends s1 s3 := by
  obtain ⟨⟨a1, e1⟩, ⟨b1, f1⟩, ⟨c1, g1⟩⟩ := h1
  obtain ⟨⟨a2, e2⟩, ⟨b2, f2⟩, ⟨c2, g2⟩⟩ := h2
  exact ⟨⟨a1 ++ a2, by rw [e2, e1, List.append_assoc]⟩,
         ⟨b1 ++ b2, by rw [f2, f1, List.append_assoc]⟩,
         ⟨c1 ++ c2, by rw [g2, g1, List.append_assoc]⟩⟩

theorem get?_append_some {α : Type} {l : List α} {k : Nat} {x : α} (t : List α)
    (h : l.get? k = some x) : (l ++ t).get? k = some x := by
  induction l generalizing k with
  | nil => cases h
  | cons a as ih =>
    cases k with
    | zero => exact h
    | succ k0 => exact ih h

theorem get?_append_self {α : Type} (l : List α) (x : α) :
    (l ++ [x]).get? l.length = some x := by
  induction l with
  | nil => rfl
  | cons a as ih => exact ih

theorem countyAt_extends {s s2 : DBState} {i : Nat} {n : String}
    (h : countyAt s i n) (he : Extends s s2) : countyAt s2 i n := by
  obtain ⟨⟨t, ht⟩, _, _⟩ := he
  exact ⟨h.1, by rw [ht]; exact get?_append_some t h.2⟩

theorem commodityAt_extends {s s2 : DBState} {i : Nat} {n : String}
    (h : commodityAt s i n) (he : Extends s s2) : commodityAt s2 i n := by
  obtain ⟨_, ⟨t, ht⟩, _⟩ := he
  obtain ⟨h1, row, hg, hn⟩ := h
  exact ⟨h1, row, by rw [ht]; exact get?_append_some t hg, hn⟩

theorem marketAt_extends {s s2 : DBState} {i : Nat} {k : String}
    (h : marketAt s i k) (he : Extends s s2) : marketAt s2 i k := by
  obtain ⟨⟨tc, htc⟩, _, ⟨tm, htm⟩⟩ := he
  obtain ⟨h1, mrow, hg, h2, cname, hgc, hk⟩ := h
  exact ⟨h1, mrow, by rw [htm]; exact get?_append_some tm hg, h2,
         cname, by rw [htc]; exact get?_append_some tc hgc, hk⟩

theorem selectId_some {α : Type} (p : α → Bool) :
    ∀ (l : List α) (i : Nat), selectId p l = some i →
      1 ≤ i ∧ ∃ x, l.get? (i - 1) = some x ∧ p x = true := by
  intro l
  induction l with
  | nil => intro i h; cases h
  | cons a as ih =>
    intro i h
    simp only [selectId] at h
    by_cases hp : p a = true
    · rw [if_pos hp] at h
      cases h
      exact ⟨Nat.le_refl 1, a, rfl, hp⟩
    · rw [if_neg hp] at h
      cases hx : selectId p as with
      | none => rw [hx] at h; cases h
      | some i0 =>
        rw [hx] at h
        simp only [Option.map] at h
        cases h
        obtain ⟨h1, x, hg, hpx⟩ := ih i0 hx
        refine ⟨Nat.le_add_left 1 i0, x, ?_, hpx⟩
        have h2 : i0 + 1 - 1 = (i0 - 1) + 1 := by omega
        rw [h2]
        simpa using hg

theorem cacheLookup_mem (c : List (String × Nat)) (key : String) (i : Nat)
    (h : cacheLookup c key = some i) : (key, i) ∈ c := by
  induction c with
  | nil => cases h
  | cons e rest ih =>
    obtain ⟨a, b⟩ := e
    simp only [cacheLookup] at h
    by_cases he : (a == key) = true
    · rw [if_pos he] at h
      cases h
      have ha : a = key := by simpa using he
      subst ha
      exact List.mem_cons_self _ _
    · rw [if_neg he] at h
      exact List.mem_cons_of_mem _ (ih h)

theorem get_or_create_county_spec (s : DBState) (name : String) (hwf : WF s) :
    WF (get_or_create_county s name).2 ∧
    Extends s (get_or_create_county s name).2 ∧
    (get_or_create_county s name).2.priceRecords = s.priceRecords ∧
    countyAt (get_or_create_county s name).2 (get_or_create_county s name).1
      (normName name) := by
  cases hc : cacheLookup s.countyCache (normName name) with
  | some i =>
    have h1 : get_or_create_county s name = (i, s) := by
      simp only [get_or_create_county, hc]
    rw [h1]
    exact ⟨hwf, Extends.refl s, rfl, hwf.1 _ (cacheLookup_mem _ _ _ hc)⟩
  | none =>
    cases hs : selectId (fun r => r == normName name) s.counties with
    | some i =>
      have h1 : get_or_create_county s name =
          (i, { s with countyCache := s.countyCache ++ [(normName name, i)] }) := by
        simp only [get_or_create_county, hc, hs]
      rw [h1]
      obtain ⟨hi, x, hg, hpx⟩ := selectId_some _ s.counties i hs
      have hx : x = normName name := by simpa using hpx
      subst hx
      have hat : countyAt s i (normName name) := ⟨hi, hg⟩
      refine ⟨⟨?_, hwf.2.1, hwf.2.2⟩, Extends.refl s, rfl, hat⟩
      intro e he
      rcases List.mem_append.mp he with h | h
      · exact hwf.1 e h
      · have he2 := List.mem_singleton.mp h
        subst he2
        exact hat
    | none =>
      have h1 : get_or_create_county s name =
          ((s.counties ++ [normName name]).length,
            { s with counties := s.counties ++ [normName name],
                     countyCache := s.countyCache ++
                       [(normName name, (s.counties ++ [normName name]).length)] }) := by
        simp only [get_or_create_county, hc, hs]
      rw [h1]
      have hext : Extends s
          { s with counties := s.counties ++ [normName name],
                   countyCache := s.countyCache ++
                     [(normName name, (s.counties ++ [normName name]).length)] } :=
        ⟨⟨[normName name], rfl⟩, ⟨[], by simp⟩, ⟨[], by simp⟩⟩
      have hat : countyAt
          { s with counties := s.counties ++ [normName name],
                   countyCache := s.countyCache ++
                     [(normName name, (s.counties ++ [normName name]).length)] }
          (s.counties ++ [normName name]).length (normName name) := by
        refine ⟨by simp, ?_⟩
        have hl : (s.counties ++ [normName name]).length - 1 = s.counties.length := by simp
        rw [hl]
        exact get?_append_self s.counties (normName name)
      refine ⟨⟨?_, ?_, ?_⟩, hext, rfl, hat⟩
      · intro e he
        rcases List.mem_append.mp he with h | h
        · exact countyAt_extends (hwf.1 e h) hext
        · have he2 := List.mem_singleton.mp h
          subst he2
          exact hat
      · intro e he
        exact commodityAt_extends (hwf.2.1 e he) hext
      · intro e he
        exact marketAt_extends (hwf.2.2 e he) hext

theorem get_or_create_commodity_spec (s : DBState) (name : String) (hwf : WF s) :
    WF (get_or_create_commodity s name).2 ∧
    Extends s (get_or_create_commodity s name).2 ∧
    (get_or_create_commodity s name).2.priceRecords = s.priceRecords ∧
    commodityAt (get_or_create_commodity s name).2 (get_or_create_commodity s name).1
      (normName name) := by
  cases hc : cacheLookup s.commodityCache (normName name) with
  | some i =>
    have h1 : get_or_create_commodity s name = (i, s) := by
      simp only [get_or_create_commodity, hc]
    rw [h1]
    exact ⟨hwf, Extends.refl s, rfl, hwf.2.1 _ (cacheLookup_mem _ _ _ hc)⟩
  | none =>
    cases hs : selectId (fun r => r.1 == normName name) s.commodities with
    | some i =>
      have h1 : get_or_create_commodity s name =
          (i, { s with commodityCache := s.commodityCache ++ [(normName name, i)] }) := by
        simp only [get_or_create_commodity, hc, hs]
      rw [h1]
      obtain ⟨hi, x, hg, hpx⟩ := selectId_some _ s.commodities i hs
      have hat : commodityAt s i (normName name) := ⟨hi, x, hg, by simpa using hpx⟩
      refine ⟨⟨hwf.1, ?_, hwf.2.2⟩, Extends.refl s, rfl, hat⟩
      intro e he
      rcases List.mem_append.mp he with h | h
      · exact hwf.2.1 e h
      · have he2 := List.mem_singleton.mp h
        subst he2
        exact hat
    | none =>
      have h1 : get_or_create_commodity s name =
          ((s.commodities ++ [(normName name, categorize_product s (normName name))]).length,
            { s with commodities :=
                       s.commodities ++ [(normName name, categorize_product s (normName name))],
                     commodityCache := s.commodityCache ++
                       [(normName name,
                         (s.commodities ++
                           [(normName name, categorize_product s (normName name))]).length)] }) := by
        simp only [get_or_create_commodity, hc, hs]
      rw [h1]
      have hext : Extends s
          { s with commodities :=
                     s.commodities ++ [(normName name, categorize_product s (normName name))],
                   commodityCache := s.commodityCache ++
                     [(normName name,
                       (s.commodities ++
                         [(normName name, categorize_product s (normName name))]).length)] } :=
        ⟨⟨[], by simp⟩, ⟨[(normName name, categorize_product s (normName name))], rfl⟩,
         ⟨[], by simp⟩⟩
      have hat : commodityAt
          { s with commodities :=
                     s.commodities ++ [(normName name, categorize_product s (normName name))],
                   commodityCache := s.commodityCache ++
                     [(normName name,
                       (s.commodities ++
                         [(normName name, categorize_product s (normName name))]).length)] }
          (s.commodities ++ [(normName name, categorize_product s (normName name))]).length
          (normName name) := by
        refine ⟨by simp, (normName name, categorize_product s (normName name)), ?_, rfl⟩
        have hl : (s.commodities ++
            [(normName name, categorize_product s (normName name))]).length - 1 =
            s.commodities.length := by simp
        rw [hl]
        exact get?_append_self s.commodities (normName name, categorize_product s (normName name))
      refine ⟨⟨?_, ?_, ?_⟩, hext, rfl, hat⟩
      · intro e he
        exact countyAt_extends (hwf.1 e he) hext
      · intro e he
        rcases List.mem_append.mp he with h | h
        · exact commodityAt_extends (hwf.2.1 e h) hext
        · have he2 := List.mem_singleton.mp h
          subst he2
          exact hat
      · intro e he
        exact marketAt_extends (hwf.2.2 e he) hext

theorem get_or_create_market_spec (s : DBState) (m c : String) (hwf : WF s) :
    WF (get_or_create_market s m c).2 ∧
    Extends s (get_or_create_market s m c).2 ∧
    (get_or_create_market s m c).2.priceRecords = s.priceRecords ∧
    marketAt (get_or_create_market s m c).2 (get_or_create_market s m c).1
      (marketKey m c) := by
  cases hk : cacheLookup s.marketCache (marketKey m c) with
  | some i =>
    have h1 : get_or_create_market s m c = (i, s) := by
      simp only [get_or_create_market, hk]
    rw [h1]
    exact ⟨hwf, Extends.refl s, rfl, hwf.2.2 _ (cacheLookup_mem _ _ _ hk)⟩
  | none =>
    obtain ⟨hwf1, hext1, hpr1, hcat⟩ := get_or_create_county_spec s c hwf
    cases hs : selectId (fun r => r.1 == normName m && r.2 == (get_or_create_county s c).1)
        (get_or_create_county s c).2.markets with
    | some i =>
      have h1 : get_or_create_market s m c =
          (i, { (get_or_create_county s c).2 with
                  marketCache := (get_or_create_county s c).2.marketCache ++
                    [(marketKey m c, i)] }) := by
        simp only [get_or_create_market, hk, hs]
      rw [h1]
      obtain ⟨hi, x, hg, hpx⟩ := selectId_some _ _ i hs
      rw [Bool.and_eq_true] at hpx
      have hx1 : x.1 = normName m := by simpa using hpx.1
      have hx2 : x.2 = (get_or_create_county s c).1 := by simpa using hpx.2
      have hat : marketAt (get_or_create_county s c).2 i (marketKey m c) := by
        refine ⟨hi, x, hg, ?_, normName c, ?_, ?_⟩
        · rw [hx2]; exact hcat.1
        · rw [hx2]; exact hcat.2
        · rw [hx1]; rfl
      refine ⟨⟨fun e he => hwf1.1 e he, fun e he => hwf1.2.1 e he, ?_⟩, hext1, hpr1, hat⟩
      intro e he
      rcases List.mem_append.mp he with h | h
      · exact hwf1.2.2 e h
      · have he2 := List.mem_singleton.mp h
        subst he2
        exact hat
    | none =>
      have h1 : get_or_create_market s m c =
          (((get_or_create_county s c).2.markets ++
              [(normName m, (get_or_create_county s c).1)]).length,
            { (get_or_create_county s c).2 with
                markets := (get_or_create_county s c).2.markets ++
                  [(normName m, (get_or_create_county s c).1)],
                marketCache := (get_or_create_county s c).2.marketCache ++
                  [(marketKey m c,
                    ((get_or_create_county s c).2.markets ++
                      [(normName m, (get_or_create_county s c).1)]).length)] }) := by
        simp only [get_or_create_market, hk, hs]
      rw [h1]
      have hext2 : Extends (get_or_create_county s c).2
          { (get_or_create_county s c).2 with
              markets := (get_or_create_county s c).2.markets ++
                [(normName m, (get_or_create_county s c).1)],
              marketCache := (get_or_create_county s c).2.marketCache ++
                [(marketKey m c,
                  ((get_or_create_county s c).2.markets ++
                    [(normName m, (get_or_create_county s c).1)]).length)] } :=
        ⟨⟨[], by simp⟩, ⟨[], by simp⟩, ⟨[(normName m, (get_or_create_county s c).1)], rfl⟩⟩
      have hat : marketAt
          { (get_or_create_county s c).2 with
              markets := (get_or_create_county s c).2.markets ++
                [(normName m, (get_or_create_county s c).1)],
              marketCache := (get_or_create_county s c).2.marketCache ++
                [(marketKey m c,
                  ((get_or_create_county s c).2.markets ++
                    [(normName m, (get_or_create_county s c).1)]).length)] }
          ((get_or_create_county s c).2.markets ++
            [(normName m, (get_or_create_county s c).1)]).length
          (marketKey m c) := by
        refine ⟨by simp, (normName m, (get_or_create_county s c).1), ?_, hcat.1,
          normName c, hcat.2, rfl⟩
        have hl : ((get_or_create_county s c).2.markets ++
            [(normName m, (get_or_create_county s c).1)]).length - 1 =
            (get_or_create_county s c).2.markets.length := by simp
        rw [hl]
        exact get?_append_self _ _
      refine ⟨⟨?_, ?_, ?_⟩, Extends.trans hext1 hext2, hpr1, hat⟩
      · intro e he
        exact countyAt_extends (hwf1.1 e he) hext2
      · intro e he
        exact commodityAt_extends (hwf1.2.1 e he) hext2
      · intro e he
        rcases List.mem_append.mp he with h | h
        · exact marketAt_extends (hwf1.2.2 e h) hext2
        · have he2 := List.mem_singleton.mp h
          subst he2
          exact hat

theorem commodityAt_inj {s : DBState} {i j : Nat} {n1 n2 : String}
    (h1 : commodityAt s i n1) (h2 : commodityAt s j n2) (hij : i = j) : n1 = n2 := by
  subst hij
  obtain ⟨_, r1, hg1, he1⟩ := h1
  obtain ⟨_, r2, hg2, he2⟩ := h2
  rw [hg1] at hg2
  cases hg2
  rw [← he1, ← he2]

theorem marketAt_inj {s : DBState} {i j : Nat} {k1 k2 : String}
    (h1 : marketAt s i k1) (h2 : marketAt s j k2) (hij : i = j) : k1 = k2 := by
  subst hij
  obtain ⟨_, r1, hg1, _, c1, hc1, he1⟩ := h1
  obtain ⟨_, r2, hg2, _, c2, hc2, he2⟩ := h2
  rw [hg1] at hg2
  cases hg2
  rw [hc1] at hc2
  cases hc2
  rw [he1, he2]

/-- The normalized dedup key of a scraped record: commodity name, market
cache key, date. -/
def recKey (r : ScrapedRecord) : String × String × PyDate :=
  (normName r.product_name, marketKey r.market_name r.county_name, r.price_date)

/-- A staged row realizes a key in a state when its two surrogate ids denote
rows carrying the key's normalized names and its date matches. -/
def rowKeyAt (s : DBState) (row : PriceRow) (k : String × String × PyDate) : Prop :=
  commodityAt s row.commodity_id k.1 ∧ marketAt s row.market_id k.2.1 ∧
    row.record_date = k.2.2

theorem rowKeyAt_extends {s s2 : DBState} {row : PriceRow} {k : String × String × PyDate}
    (h : rowKeyAt s row k) (he : Extends s s2) : rowKeyAt s2 row k :=
  ⟨commodityAt_extends h.1 he, marketAt_extends h.2.1 he, h.2.2⟩

/-- No two rows share the `(commodity_id, market_id, record_date)` triple. -/
def DistinctTriples (l : List PriceRow) : Prop :=
  l.Pairwise (fun a b => rowTriple a ≠ rowTriple b)

theorem key_ne_triple_ne {s : DBState} {row1 row2 : PriceRow}
    {k1 k2 : String × String × PyDate}
    (h1 : rowKeyAt s row1 k1) (h2 : rowKeyAt s row2 k2) (hk : k1 ≠ k2) :
    rowTriple row1 ≠ rowTriple row2 := by
  intro he
  apply hk
  have hc : row1.commodity_id = row2.commodity_id := congrArg (fun t => t.1) he
  have hm : row1.market_id = row2.market_id := congrArg (fun t => t.2.1) he
  have hd : row1.record_date = row2.record_date := congrArg (fun t => t.2.2) he
  have e1 : k1.1 = k2.1 := commodityAt_inj h1.1 h2.1 hc
  have e2 : k1.2.1 = k2.2.1 := marketAt_inj h1.2.1 h2.2.1 hm
  have e3 : k1.2.2 = k2.2.2 := by rw [← h1.2.2, ← h2.2.2, hd]
  obtain ⟨a1, b1, c1⟩ := k1
  obtain ⟨a2, b2, c2⟩ := k2
  simp only at e1 e2 e3
  rw [e1, e2, e3]

theorem rowTriple_stage (cid mid : Nat) (r : ScrapedRecord) :
    rowTriple (stageRecord cid mid r) = (cid, mid, r.price_date) := rfl

/-- `_execute_batch_insert` only appends (a sublist of) the batch to the
price-record table and touches nothing else. -/
theorem execute_batch_insert_state (fm : FailureModel) (s : DBState) (batch : List PriceRow) :
    ∃ kept, (execute_batch_insert fm s batch).2 =
      { s with priceRecords := s.priceRecords ++ kept } ∧ kept.Sublist batch := by
  unfold execute_batch_insert
  split
  · exact ⟨batch.filter (fun r => !fm.rowFails r), rfl, List.filter_sublist batch⟩
  · exact ⟨batch, rfl, List.Sublist.refl batch⟩

theorem dedupHit_false {s : DBState} {cid mid : Nat} {d : PyDate}
    (h : ¬ dedupHit s cid mid d = true) :
    ∀ pr ∈ s.priceRecords, rowTriple pr ≠ (cid, mid, d) := by
  intro pr hpr he
  apply h
  unfold dedupHit
  rw [List.any_eq_true]
  exact ⟨pr, hpr, by simp [he]⟩

theorem insertLoop_distinct (fm : FailureModel) :
    ∀ (records : List ScrapedRecord) (s : DBState) (batch : List PriceRow),
      WF s →
      DistinctTriples (s.priceRecords ++ batch) →
      records.Pairwise (fun a b => recKey a ≠ recKey b) →
      (∀ row ∈ batch, ∃ k, rowKeyAt s row k ∧ ∀ r2 ∈ records, k ≠ recKey r2) →
      DistinctTriples ((insertLoop fm records s batch).2.1.priceRecords) := by
  intro records
  induction records with
  | nil =>
    intro s batch hwf hdist hrec hlink
    simp only [insertLoop]
    by_cases hb : batch.isEmpty = true
    · rw [if_pos hb]
      rw [List.isEmpty_iff.mp hb, List.append_nil] at hdist
      exact hdist
    · rw [if_neg hb]
      obtain ⟨kept, hstate, hsub⟩ := execute_batch_insert_state fm s batch
      show DistinctTriples (execute_batch_insert fm s batch).2.priceRecords
      rw [hstate]
      exact List.Pairwise.sublist (List.Sublist.append_left hsub s.priceRecords) hdist
  | cons r rest ih =>
    intro s batch hwf hdist hrec hlink
    simp only [insertLoop]
    obtain ⟨hwf1, hext1, hpr1, hcom⟩ := get_or_create_commodity_spec s r.product_name hwf
    obtain ⟨hwf2, hext2, hpr2, hmar⟩ :=
      get_or_create_market_spec (get_or_create_commodity s r.product_name).2
        r.market_name r.county_name hwf1
    set s2 := (get_or_create_market (get_or_create_commodity s r.product_name).2
      r.market_name r.county_name).2 with hs2
    set cid := (get_or_create_commodity s r.product_name).1 with hcid
    set mid := (get_or_create_market (get_or_create_commodity s r.product_name).2
      r.market_name r.county_name).1 with hmid
    have hprs : s2.priceRecords = s.priceRecords := by rw [hpr2, hpr1]
    have hextall : Extends s s2 := Extends.trans hext1 hext2
    have hcom2 : commodityAt s2 cid (normName r.product_name) :=
      commodityAt_extends hcom hext2
    by_cases hd : dedupHit s2 cid mid r.price_date = true
    · rw [if_pos hd]
      refine ih s2 batch hwf2 ?_ (List.pairwise_cons.mp hrec).2 ?_
      · rw [hprs]
        exact hdist
      · intro row hrow
        obtain ⟨k, hk, hno⟩ := hlink row hrow
        exact ⟨k, rowKeyAt_extends hk hextall,
          fun r2 h2 => hno r2 (List.mem_cons_of_mem r h2)⟩
    · rw [if_neg hd]
      have hnewkey : rowKeyAt s2 (stageRecord cid mid r) (recKey r) := ⟨hcom2, hmar, rfl⟩
      have hbatchkeys : ∀ row ∈ batch, ∃ k, rowKeyAt s2 row k ∧ k ≠ recKey r ∧
          ∀ r2 ∈ rest, k ≠ recKey r2 := by
        intro row hrow
        obtain ⟨k, hk, hno⟩ := hlink row hrow
        exact ⟨k, rowKeyAt_extends hk hextall,
          hno r (List.mem_cons_self r rest),
          fun r2 h2 => hno r2 (List.mem_cons_of_mem r h2)⟩
      have hdist2 : DistinctTriples (s.priceRecords ++ (batch ++ [stageRecord cid mid r])) := by
        unfold DistinctTriples
        rw [← List.append_assoc, List.pairwise_append]
        refine ⟨hdist, List.pairwise_singleton _ _, ?_⟩
        intro a ha b hb
        have hb2 : b = stageRecord cid mid r := List.mem_singleton.mp hb
        subst hb2
        rcases List.mem_append.mp ha with h | h
        · rw [rowTriple_stage]
          exact dedupHit_false hd a (by rw [hprs]; exact h)
        · obtain ⟨k, hk2, hkne, _⟩ := hbatchkeys a h
          exact key_ne_triple_ne hk2 hnewkey hkne
      by_cases hlenb : BATCH_SIZE ≤ (batch ++ [stageRecord cid mid r]).length
      · rw [if_pos hlenb]
        obtain ⟨kept, hstate, hsub⟩ :=
          execute_batch_insert_state fm s2 (batch ++ [stageRecord cid mid r])
        refine ih (execute_batch_insert fm s2 (batch ++ [stageRecord cid mid r])).2 []
          ?_ ?_ (List.pairwise_cons.mp hrec).2 ?_
        · rw [hstate]
          exact hwf2
        · rw [hstate, List.append_nil]
          show DistinctTriples (s2.priceRecords ++ kept)
          refine List.Pairwise.sublist (List.Sublist.append_left hsub s2.priceRecords) ?_
          rw [hprs]
          exact hdist2
        · intro row hrow
          cases hrow
      · rw [if_neg hlenb]
        refine ih s2 (batch ++ [stageRecord cid mid r]) hwf2 ?_
          (List.pairwise_cons.mp hrec).2 ?_
        · rw [hprs]
          exact hdist2
        · intro row hrow
          rcases List.mem_append.mp hrow with h | h
          · obtain ⟨k, hk2, hkne, hrest⟩ := hbatchkeys row h
            exact ⟨k, hk2, hrest⟩
          · have hr2 := List.mem_singleton.mp h
            subst hr2
            exact ⟨recKey r, hnewkey, fun r2 h2 => (List.pairwise_cons.mp hrec).1 r2 h2⟩

/-- A record scraped as "Dry Maize at Wakulima, Nairobi on 2024-01-10". -/
def dupRecord : ScrapedRecord :=
  ⟨"Dry Maize", "Wakulima", "Nairobi", none, none, none, none, none, none, ⟨2024, 1, 10⟩⟩

/-- A second record with a different commodity, same market and date. -/
def otherRecord : ScrapedRecord :=
  ⟨"Cabbage", "Wakulima", "Nairobi", none, none, none, none, none, none, ⟨2024, 1, 10⟩⟩

/-- C2 counterexample: ingesting the same record twice in one batch into the
empty store persists two rows with the same
`(commodity_id, market_id, record_date)` triple — the duplicate check only
queries persisted rows, and the first copy is still sitting in the
unflushed batch when the second is checked. -/
theorem insert_duplicate_pair :
    (((insert_price_records noFailures dbS0 [dupRecord, dupRecord]).2.priceRecords.filter
        (fun pr => decide (rowTriple pr = (1, 1, ⟨2024, 1, 10⟩)))).length = 2) ∧
    ((insert_price_records noFailures dbS0 [dupRecord, dupRecord]).2.priceRecords.map
        rowTriple) = [(1, 1, ⟨2024, 1, 10⟩), (1, 1, ⟨2024, 1, 10⟩)] := by
  constructor
  · decide
  · decide

/-- C2 amended.  Ingestion preserves dedup-key uniqueness of the persisted
rows provided the input batch itself contains no two records with the same
normalized key (commodity name, market cache key, date): every staged
record's triple is new relative to the rows persisted at check time, and
records with distinct normalized keys resolve to distinct id triples.
Within a single call, two records with the SAME key can both be persisted
(see the counterexample), which is the only weakening of the original
claim. -/
theorem insert_price_records_distinct (fm : FailureModel) (s : DBState)
    (records : List ScrapedRecord) (hwf : WF s)
    (hd : DistinctTriples s.priceRecords)
    (hk : records.Pairwise (fun a b => recKey a ≠ recKey b)) :
    DistinctTriples ((insert_price_records fm s records).2.priceRecords) := by
  unfold insert_price_records
  by_cases hr : records.isEmpty = true
  · rw [if_pos hr]
    exact hd
  · rw [if_neg hr]
    refine insertLoop_distinct fm records s [] hwf ?_ hk ?_
    · rw [List.append_nil]
      exact hd
    · intro row hrow
      cases hrow

/-- C2 witness: two records with distinct commodities ingested into the
fresh store leave the persisted rows triple-distinct. -/
theorem insert_price_records_distinct_witness :
    WF dbS0 ∧ DistinctTriples dbS0.priceRecords ∧
    ([dupRecord, otherRecord].Pairwise (fun a b => recKey a ≠ recKey b)) ∧
    DistinctTriples
      ((insert_price_records noFailures dbS0 [dupRecord, otherRecord]).2.priceRecords) := by
  have hwf : WF dbS0 := by
    refine ⟨?_, ?_, ?_⟩ <;> (intro e he; cases he)
  have hd : DistinctTriples dbS0.priceRecords := List.Pairwise.nil
  have hk : ([dupRecord, otherRecord].Pairwise (fun a b => recKey a ≠ recKey b)) := by
    refine List.Pairwise.cons ?_ (List.Pairwise.cons (fun b hb => by cases hb) List.Pairwise.nil)
    intro b hb
    have : b = otherRecord := List.mem_singleton.mp hb
    subst this
    decide
  exact ⟨hwf, hd, hk, insert_price_records_distinct noFailures dbS0 [dupRecord, otherRecord]
    hwf hd hk⟩
